import Mathlib

/-!
Verification of the validated UTF-8 text view (`Chars` in
`protobuf/src/chars.rs`) built on top of the shared byte buffer type
(`bytes::Bytes`).

The development is a shallow embedding:

* Bytes are modelled as `Nat`s, byte strings as `List Nat`.
* UTF-8 validity is defined declaratively (`Utf8Valid`: the byte string is
  the encoding of some sequence of Unicode scalar values) and operationally
  (`utf8Validate`, the validation loop of Rust's `str::from_utf8`, which
  reports the byte offset of the first invalid sequence).  The two are
  proved to agree.
* `bytes::Bytes` is modelled as a handle (allocation id, offset, length)
  into an explicit heap of immutable allocations, so that storage sharing
  between clones and the frame effect of `clear` are observable.
* `Chars` and its trait surface (`Deref`, `PartialEq`, `Ord`, `Hash`,
  `Display`, `Debug`, `PartialEq<&str>`) are modelled on top of that.
-/

/-- A Unicode scalar value: a code point that is not a surrogate. -/
abbrev ScalarValue (c : Nat) : Prop := c < 0x110000 ∧ ¬ (0xD800 ≤ c ∧ c < 0xE000)

/-- Standard UTF-8 encoding of one Unicode scalar value. -/
def utf8EncodeChar (c : Nat) : List Nat :=
  if c < 0x80 then [c]
  else if c < 0x800 then [0xC0 + c / 0x40, 0x80 + c % 0x40]
  else if c < 0x10000 then
    [0xE0 + c / 0x1000, 0x80 + c / 0x40 % 0x40, 0x80 + c % 0x40]
  else
    [0xF0 + c / 0x40000, 0x80 + c / 0x1000 % 0x40, 0x80 + c / 0x40 % 0x40,
      0x80 + c % 0x40]

/-- UTF-8 encoding of a sequence of scalar values. -/
def utf8Encode : List Nat → List Nat
  | [] => []
  | c :: cs => utf8EncodeChar c ++ utf8Encode cs

/-- A byte string is valid UTF-8 iff it is the encoding of some sequence of
Unicode scalar values.  This is the declarative definition used by the
specification. -/
def Utf8Valid (b : List Nat) : Prop :=
  ∃ cs, (∀ c ∈ cs, ScalarValue c) ∧ utf8Encode cs = b

/-- A UTF-8 continuation byte, `0x80 ..= 0xBF`. -/
abbrev ContByte (c : Nat) : Prop := 0x80 ≤ c ∧ c ≤ 0xBF

/-- Admissible second byte of a three-byte sequence, per the
`(first, next)` table of Rust core's `run_utf8_validation` (this is what
rules out overlong encodings and surrogates). -/
abbrev Utf8Second3Ok (x c1 : Nat) : Prop :=
  (x = 0xE0 ∧ 0xA0 ≤ c1 ∧ c1 ≤ 0xBF) ∨
  (0xE1 ≤ x ∧ x ≤ 0xEC ∧ 0x80 ≤ c1 ∧ c1 ≤ 0xBF) ∨
  (x = 0xED ∧ 0x80 ≤ c1 ∧ c1 ≤ 0x9F) ∨
  (0xEE ≤ x ∧ x ≤ 0xEF ∧ 0x80 ≤ c1 ∧ c1 ≤ 0xBF)

/-- Admissible second byte of a four-byte sequence, per the
`(first, next)` table of Rust core's `run_utf8_validation` (this is what
rules out overlong encodings and code points above `0x10FFFF`). -/
abbrev Utf8Second4Ok (x c1 : Nat) : Prop :=
  (x = 0xF0 ∧ 0x90 ≤ c1 ∧ c1 ≤ 0xBF) ∨
  (0xF1 ≤ x ∧ x ≤ 0xF3 ∧ 0x80 ≤ c1 ∧ c1 ≤ 0xBF) ∨
  (x = 0xF4 ∧ 0x80 ≤ c1 ∧ c1 ≤ 0x8F)

/-- The validation loop of Rust's `str::from_utf8`
(`core::str::validations::run_utf8_validation`): returns `none` if the
whole byte string is valid UTF-8, and `some o` where `o` is the byte
offset of the start of the first invalid sequence otherwise (the
`valid_up_to` field of `std::str::Utf8Error`). -/
def utf8Validate : List Nat → Option Nat
  | [] => none
  | x :: rest =>
    if x < 0x80 then (utf8Validate rest).map (· + 1)
    else if x < 0xC2 then some 0
    else if x ≤ 0xDF then
      match rest with
      | [] => some 0
      | c :: rest2 =>
        if ContByte c then (utf8Validate rest2).map (· + 2) else some 0
    else if x ≤ 0xEF then
      match rest with
      | [] => some 0
      | c1 :: rest2 =>
        if Utf8Second3Ok x c1 then
          match rest2 with
          | [] => some 0
          | c2 :: rest3 =>
            if ContByte c2 then (utf8Validate rest3).map (· + 3) else some 0
        else some 0
    else if x ≤ 0xF4 then
      match rest with
      | [] => some 0
      | c1 :: rest2 =>
        if Utf8Second4Ok x c1 then
          match rest2 with
          | [] => some 0
          | c2 :: rest3 =>
            if ContByte c2 then
              match rest3 with
              | [] => some 0
              | c3 :: rest4 =>
                if ContByte c3 then (utf8Validate rest4).map (· + 4) else some 0
            else some 0
        else some 0
    else some 0

example : utf8Validate [0x63, 0x61, 0x66, 0xC3, 0xA9] = none := by decide
example : utf8Validate [0x63, 0x61, 0xFF, 0x66, 0x65] = some 2 := by decide
example : utf8Validate [0x61, 0xE2, 0x82, 0xAC] = none := by decide
example : utf8Validate [0x61, 0xE2, 0x82] = some 1 := by decide
example : utf8Validate [0xED, 0xA0, 0x80] = some 0 := by decide
example : utf8Validate [0xF4, 0x90, 0x80, 0x80] = some 0 := by decide
example : utf8Validate [0xC0, 0xAF] = some 0 := by decide
example : utf8EncodeChar 0x20AC = [0xE2, 0x82, 0xAC] := by decide
example : utf8EncodeChar 0x10348 = [0xF0, 0x90, 0x8D, 0x88] := by decide

/-! ### Branch lemmas for the validator -/

lemma utf8Validate_one (x : Nat) (rest : List Nat) (h : x < 0x80) :
    utf8Validate (x :: rest) = (utf8Validate rest).map (· + 1) := by
  rw [utf8Validate.eq_def]
  simp only [if_pos h]

lemma utf8Validate_two (x c : Nat) (rest : List Nat) (h1 : 0xC2 ≤ x) (h2 : x ≤ 0xDF)
    (h3 : ContByte c) :
    utf8Validate (x :: c :: rest) = (utf8Validate rest).map (· + 2) := by
  have hn1 : ¬ x < 0x80 := by omega
  have hn2 : ¬ x < 0xC2 := by omega
  rw [utf8Validate.eq_def]
  simp only [if_neg hn1, if_neg hn2, if_pos h2, if_pos h3]

lemma utf8Validate_three (x c1 c2 : Nat) (rest : List Nat) (h1 : 0xE0 ≤ x) (h2 : x ≤ 0xEF)
    (h3 : Utf8Second3Ok x c1) (h4 : ContByte c2) :
    utf8Validate (x :: c1 :: c2 :: rest) = (utf8Validate rest).map (· + 3) := by
  have hn1 : ¬ x < 0x80 := by omega
  have hn2 : ¬ x < 0xC2 := by omega
  have hn3 : ¬ x ≤ 0xDF := by omega
  rw [utf8Validate.eq_def]
  simp only [if_neg hn1, if_neg hn2, if_neg hn3, if_pos h2, if_pos h3, if_pos h4]

lemma utf8Validate_four (x c1 c2 c3 : Nat) (rest : List Nat) (h1 : 0xF0 ≤ x)
    (h2 : x ≤ 0xF4) (h3 : Utf8Second4Ok x c1) (h4 : ContByte c2) (h5 : ContByte c3) :
    utf8Validate (x :: c1 :: c2 :: c3 :: rest) = (utf8Validate rest).map (· + 4) := by
  have hn1 : ¬ x < 0x80 := by omega
  have hn2 : ¬ x < 0xC2 := by omega
  have hn3 : ¬ x ≤ 0xDF := by omega
  have hn4 : ¬ x ≤ 0xEF := by omega
  rw [utf8Validate.eq_def]
  simp only [if_neg hn1, if_neg hn2, if_neg hn3, if_neg hn4, if_pos h2, if_pos h3,
    if_pos h4, if_pos h5]

/-! ### Shape lemmas for the encoder -/

lemma utf8EncodeChar_one (c : Nat) (h : c < 0x80) : utf8EncodeChar c = [c] := by
  unfold utf8EncodeChar
  rw [if_pos h]

lemma utf8EncodeChar_two (c : Nat) (h1 : 0x80 ≤ c) (h2 : c < 0x800) :
    utf8EncodeChar c = [0xC0 + c / 0x40, 0x80 + c % 0x40] := by
  unfold utf8EncodeChar
  rw [if_neg (by omega), if_pos h2]

lemma utf8EncodeChar_three (c : Nat) (h1 : 0x800 ≤ c) (h2 : c < 0x10000) :
    utf8EncodeChar c = [0xE0 + c / 0x1000, 0x80 + c / 0x40 % 0x40, 0x80 + c % 0x40] := by
  unfold utf8EncodeChar
  rw [if_neg (by omega), if_neg (by omega), if_pos h2]

lemma utf8EncodeChar_four (c : Nat) (h1 : 0x10000 ≤ c) :
    utf8EncodeChar c = [0xF0 + c / 0x40000, 0x80 + c / 0x1000 % 0x40,
      0x80 + c / 0x40 % 0x40, 0x80 + c % 0x40] := by
  unfold utf8EncodeChar
  rw [if_neg (by omega), if_neg (by omega), if_neg (by omega)]

/-! ### The validator accepts exactly the encodings of scalar sequences -/

/-- Running the validator on one encoded scalar value followed by a tail
just skips over the encoded character. -/
lemma utf8Validate_encodeChar (c : Nat) (hc : ScalarValue c) (t : List Nat) :
    utf8Validate (utf8EncodeChar c ++ t)
      = (utf8Validate t).map (· + (utf8EncodeChar c).length) := by
  obtain ⟨hlt, hsur⟩ := hc
  rcases Nat.lt_or_ge c 0x80 with h1 | h1
  · rw [utf8EncodeChar_one c h1]
    simpa using utf8Validate_one c t h1
  · rcases Nat.lt_or_ge c 0x800 with h2 | h2
    · rw [utf8EncodeChar_two c h1 h2]
      simpa using utf8Validate_two (0xC0 + c / 0x40) (0x80 + c % 0x40) t
        (by omega) (by omega) ⟨by omega, by omega⟩
    · rcases Nat.lt_or_ge c 0x10000 with h3 | h3
      · rw [utf8EncodeChar_three c h2 h3]
        have hs3 : Utf8Second3Ok (0xE0 + c / 0x1000) (0x80 + c / 0x40 % 0x40) := by
          unfold Utf8Second3Ok
          omega
        simpa using utf8Validate_three (0xE0 + c / 0x1000) (0x80 + c / 0x40 % 0x40)
          (0x80 + c % 0x40) t (by omega) (by omega) hs3 ⟨by omega, by omega⟩
      · rw [utf8EncodeChar_four c h3]
        have hs4 : Utf8Second4Ok (0xF0 + c / 0x40000) (0x80 + c / 0x1000 % 0x40) := by
          unfold Utf8Second4Ok
          omega
        simpa using utf8Validate_four (0xF0 + c / 0x40000) (0x80 + c / 0x1000 % 0x40)
          (0x80 + c / 0x40 % 0x40) (0x80 + c % 0x40) t (by omega) (by omega) hs4
          ⟨by omega, by omega⟩ ⟨by omega, by omega⟩

/-- Running the validator on an encoded scalar sequence followed by a tail
skips over the whole encoded part. -/
lemma utf8Validate_encode_append (cs : List Nat) (t : List Nat)
    (h : ∀ c ∈ cs, ScalarValue c) :
    utf8Validate (utf8Encode cs ++ t)
      = (utf8Validate t).map (· + (utf8Encode cs).length) := by
  induction cs with
  | nil =>
    cases hv : utf8Validate t <;> simp [utf8Encode, hv]
  | cons c cs ih =>
    have hc : ScalarValue c := h c (by simp)
    have hcs : ∀ d ∈ cs, ScalarValue d := fun d hd => h d (by simp [hd])
    rw [utf8Encode, List.append_assoc, utf8Validate_encodeChar c hc,
      ih hcs]
    cases hv : utf8Validate t <;>
      simp [List.length_append, Nat.add_assoc, Nat.add_comm]

/-- Completeness: a valid UTF-8 byte string passes the validator. -/
lemma utf8Valid_validate_eq_none (b : List Nat) (h : Utf8Valid b) :
    utf8Validate b = none := by
  obtain ⟨cs, hcs, rfl⟩ := h
  have := utf8Validate_encode_append cs [] hcs
  simpa using this

/-! ### Soundness: byte strings accepted by the validator are valid -/

lemma utf8Validate_nil : utf8Validate [] = none := rfl

lemma utf8Valid_nil : Utf8Valid [] := ⟨[], by simp, rfl⟩

lemma utf8Valid_char_append (c : Nat) (t : List Nat) (hc : ScalarValue c)
    (ht : Utf8Valid t) : Utf8Valid (utf8EncodeChar c ++ t) := by
  obtain ⟨cs, hcs, rfl⟩ := ht
  refine ⟨c :: cs, ?_, rfl⟩
  intro d hd
  rcases List.mem_cons.mp hd with rfl | hd
  · exact hc
  · exact hcs d hd

lemma option_map_eq_none {o : Option Nat} {f : Nat → Nat} (h : o.map f = none) :
    o = none := by
  cases o with
  | none => rfl
  | some v => simp at h

lemma option_map_eq_some {o : Option Nat} {f : Nat → Nat} {y : Nat}
    (h : o.map f = some y) : ∃ x, o = some x ∧ y = f x := by
  cases o with
  | none => simp at h
  | some v => exact ⟨v, rfl, by simpa using h.symm⟩

/-- Reconstruction: a two-byte sequence admitted by the validator is the
encoding of a scalar value. -/
lemma scalar_of_two (x c : Nat) (h1 : 0xC2 ≤ x) (h2 : x ≤ 0xDF) (h3 : ContByte c) :
    ∃ v, ScalarValue v ∧ utf8EncodeChar v = [x, c] := by
  obtain ⟨hc1, hc2⟩ := h3
  refine ⟨(x - 0xC0) * 0x40 + (c - 0x80), ⟨by omega, by omega⟩, ?_⟩
  rw [utf8EncodeChar_two _ (by omega) (by omega)]
  simp only [List.cons.injEq, and_true]
  omega

/-- Reconstruction: a three-byte sequence admitted by the validator is the
encoding of a scalar value. -/
lemma scalar_of_three (x c1 c2 : Nat) (h3 : Utf8Second3Ok x c1) (h4 : ContByte c2) :
    ∃ v, ScalarValue v ∧ utf8EncodeChar v = [x, c1, c2] := by
  unfold Utf8Second3Ok at h3
  obtain ⟨hc1, hc2⟩ := h4
  refine ⟨(x - 0xE0) * 0x1000 + (c1 - 0x80) * 0x40 + (c2 - 0x80),
    ⟨by omega, by omega⟩, ?_⟩
  rw [utf8EncodeChar_three _ (by omega) (by omega)]
  simp only [List.cons.injEq, and_true]
  omega

/-- Reconstruction: a four-byte sequence admitted by the validator is the
encoding of a scalar value. -/
lemma scalar_of_four (x c1 c2 c3 : Nat) (h3 : Utf8Second4Ok x c1) (h4 : ContByte c2)
    (h5 : ContByte c3) :
    ∃ v, ScalarValue v ∧ utf8EncodeChar v = [x, c1, c2, c3] := by
  unfold Utf8Second4Ok at h3
  obtain ⟨hc1, hc2⟩ := h4
  obtain ⟨hd1, hd2⟩ := h5
  refine ⟨(x - 0xF0) * 0x40000 + (c1 - 0x80) * 0x1000 + (c2 - 0x80) * 0x40 + (c3 - 0x80),
    ⟨by omega, by omega⟩, ?_⟩
  rw [utf8EncodeChar_four _ (by omega)]
  simp only [List.cons.injEq, and_true]
  omega

/-! ### Evaluation of the validator on each kind of malformed sequence -/

lemma utf8Validate_err1 (x : Nat) (rest : List Nat) (h1 : 0x80 ≤ x) (h2 : x < 0xC2) :
    utf8Validate (x :: rest) = some 0 := by
  rw [utf8Validate.eq_def]
  simp only [if_neg (show ¬ x < 0x80 by omega), if_pos h2]

lemma utf8Validate_err2nil (x : Nat) (h1 : 0xC2 ≤ x) (h2 : x ≤ 0xDF) :
    utf8Validate [x] = some 0 := by
  rw [utf8Validate.eq_def]
  simp only [if_neg (show ¬ x < 0x80 by omega), if_neg (show ¬ x < 0xC2 by omega),
    if_pos h2]

lemma utf8Validate_err2cont (x c : Nat) (rest : List Nat) (h1 : 0xC2 ≤ x)
    (h2 : x ≤ 0xDF) (h3 : ¬ ContByte c) : utf8Validate (x :: c :: rest) = some 0 := by
  rw [utf8Validate.eq_def]
  simp only [if_neg (show ¬ x < 0x80 by omega), if_neg (show ¬ x < 0xC2 by omega),
    if_pos h2, if_neg h3]

lemma utf8Validate_err3nil (x : Nat) (h1 : 0xE0 ≤ x) (h2 : x ≤ 0xEF) :
    utf8Validate [x] = some 0 := by
  rw [utf8Validate.eq_def]
  simp only [if_neg (show ¬ x < 0x80 by omega), if_neg (show ¬ x < 0xC2 by omega),
    if_neg (show ¬ x ≤ 0xDF by omega), if_pos h2]

lemma utf8Validate_err3one (x c1 : Nat) (h1 : 0xE0 ≤ x) (h2 : x ≤ 0xEF) :
    utf8Validate [x, c1] = some 0 := by
  rw [utf8Validate.eq_def]
  simp only [if_neg (show ¬ x < 0x80 by omega), if_neg (show ¬ x < 0xC2 by omega),
    if_neg (show ¬ x ≤ 0xDF by omega), if_pos h2]
  by_cases h : Utf8Second3Ok x c1
  · simp only [if_pos h]
  · simp only [if_neg h]

lemma utf8Validate_err3second (x c1 : Nat) (rest : List Nat) (h1 : 0xE0 ≤ x)
    (h2 : x ≤ 0xEF) (h3 : ¬ Utf8Second3Ok x c1) :
    utf8Validate (x :: c1 :: rest) = some 0 := by
  rw [utf8Validate.eq_def]
  simp only [if_neg (show ¬ x < 0x80 by omega), if_neg (show ¬ x < 0xC2 by omega),
    if_neg (show ¬ x ≤ 0xDF by omega), if_pos h2, if_neg h3]

lemma utf8Validate_err3cont (x c1 c2 : Nat) (rest : List Nat) (h1 : 0xE0 ≤ x)
    (h2 : x ≤ 0xEF) (h3 : Utf8Second3Ok x c1) (h4 : ¬ ContByte c2) :
    utf8Validate (x :: c1 :: c2 :: rest) = some 0 := by
  rw [utf8Validate.eq_def]
  simp only [if_neg (show ¬ x < 0x80 by omega), if_neg (show ¬ x < 0xC2 by omega),
    if_neg (show ¬ x ≤ 0xDF by omega), if_pos h2, if_pos h3, if_neg h4]

lemma utf8Validate_err4nil (x : Nat) (h1 : 0xF0 ≤ x) (h2 : x ≤ 0xF4) :
    utf8Validate [x] = some 0 := by
  rw [utf8Validate.eq_def]
  simp only [if_neg (show ¬ x < 0x80 by omega), if_neg (show ¬ x < 0xC2 by omega),
    if_neg (show ¬ x ≤ 0xDF by omega), if_neg (show ¬ x ≤ 0xEF by omega), if_pos h2]

lemma utf8Validate_err4one (x c1 : Nat) (h1 : 0xF0 ≤ x) (h2 : x ≤ 0xF4) :
    utf8Validate [x, c1] = some 0 := by
  rw [utf8Validate.eq_def]
  simp only [if_neg (show ¬ x < 0x80 by omega), if_neg (show ¬ x < 0xC2 by omega),
    if_neg (show ¬ x ≤ 0xDF by omega), if_neg (show ¬ x ≤ 0xEF by omega), if_pos h2]
  by_cases h : Utf8Second4Ok x c1
  · simp only [if_pos h]
  · simp only [if_neg h]

lemma utf8Validate_err4two (x c1 c2 : Nat) (h1 : 0xF0 ≤ x) (h2 : x ≤ 0xF4) :
    utf8Validate [x, c1, c2] = some 0 := by
  rw [utf8Validate.eq_def]
  simp only [if_neg (show ¬ x < 0x80 by omega), if_neg (show ¬ x < 0xC2 by omega),
    if_neg (show ¬ x ≤ 0xDF by omega), if_neg (show ¬ x ≤ 0xEF by omega), if_pos h2]
  by_cases h : Utf8Second4Ok x c1
  · simp only [if_pos h]
    by_cases h' : ContByte c2
    · simp only [if_pos h']
    · simp only [if_neg h']
  · simp only [if_neg h]

lemma utf8Validate_err4second (x c1 : Nat) (rest : List Nat) (h1 : 0xF0 ≤ x)
    (h2 : x ≤ 0xF4) (h3 : ¬ Utf8Second4Ok x c1) :
    utf8Validate (x :: c1 :: rest) = some 0 := by
  rw [utf8Validate.eq_def]
  simp only [if_neg (show ¬ x < 0x80 by omega), if_neg (show ¬ x < 0xC2 by omega),
    if_neg (show ¬ x ≤ 0xDF by omega), if_neg (show ¬ x ≤ 0xEF by omega), if_pos h2,
    if_neg h3]

lemma utf8Validate_err4c2 (x c1 c2 : Nat) (rest : List Nat) (h1 : 0xF0 ≤ x)
    (h2 : x ≤ 0xF4) (h3 : Utf8Second4Ok x c1) (h4 : ¬ ContByte c2) :
    utf8Validate (x :: c1 :: c2 :: rest) = some 0 := by
  rw [utf8Validate.eq_def]
  simp only [if_neg (show ¬ x < 0x80 by omega), if_neg (show ¬ x < 0xC2 by omega),
    if_neg (show ¬ x ≤ 0xDF by omega), if_neg (show ¬ x ≤ 0xEF by omega), if_pos h2,
    if_pos h3, if_neg h4]

lemma utf8Validate_err4c3 (x c1 c2 c3 : Nat) (rest : List Nat) (h1 : 0xF0 ≤ x)
    (h2 : x ≤ 0xF4) (h3 : Utf8Second4Ok x c1) (h4 : ContByte c2) (h5 : ¬ ContByte c3) :
    utf8Validate (x :: c1 :: c2 :: c3 :: rest) = some 0 := by
  rw [utf8Validate.eq_def]
  simp only [if_neg (show ¬ x < 0x80 by omega), if_neg (show ¬ x < 0xC2 by omega),
    if_neg (show ¬ x ≤ 0xDF by omega), if_neg (show ¬ x ≤ 0xEF by omega), if_pos h2,
    if_pos h3, if_pos h4, if_neg h5]

lemma utf8Validate_err5 (x : Nat) (rest : List Nat) (h1 : 0xF4 < x) :
    utf8Validate (x :: rest) = some 0 := by
  rw [utf8Validate.eq_def]
  simp only [if_neg (show ¬ x < 0x80 by omega), if_neg (show ¬ x < 0xC2 by omega),
    if_neg (show ¬ x ≤ 0xDF by omega), if_neg (show ¬ x ≤ 0xEF by omega),
    if_neg (show ¬ x ≤ 0xF4 by omega)]

/-- Soundness of the validator: if `utf8Validate` accepts a byte string,
it is the encoding of some scalar sequence. -/
lemma utf8Validate_none_valid (b : List Nat) :
    utf8Validate b = none → Utf8Valid b := by
  induction b using utf8Validate.induct
  case case1 => exact fun _ => utf8Valid_nil
  case case2 x rest hx ih =>
    intro h
    rw [utf8Validate_one x rest hx] at h
    have := utf8Valid_char_append x rest ⟨by omega, by omega⟩ (ih (option_map_eq_none h))
    rwa [utf8EncodeChar_one x hx] at this
  case case5 x hn1 hn2 h2 c rest2 hc ih =>
    intro h
    rw [utf8Validate_two x c rest2 (by omega) h2 hc] at h
    obtain ⟨v, hv, henc⟩ := scalar_of_two x c (by omega) h2 hc
    have := utf8Valid_char_append v rest2 hv (ih (option_map_eq_none h))
    rw [henc] at this
    simpa using this
  case case9 x hn1 hn2 hn3 h2 c1 hs3 c2 rest3 hc2 ih =>
    intro h
    rw [utf8Validate_three x c1 c2 rest3 (by omega) h2 hs3 hc2] at h
    obtain ⟨v, hv, henc⟩ := scalar_of_three x c1 c2 hs3 hc2
    have := utf8Valid_char_append v rest3 hv (ih (option_map_eq_none h))
    rw [henc] at this
    simpa using this
  case case15 x hn1 hn2 hn3 hn4 h2 c1 hs4 c2 hc2 c3 rest4 hc3 ih =>
    intro h
    rw [utf8Validate_four x c1 c2 c3 rest4 (by omega) h2 hs4 hc2 hc3] at h
    obtain ⟨v, hv, henc⟩ := scalar_of_four x c1 c2 c3 hs4 hc2 hc3
    have := utf8Valid_char_append v rest4 hv (ih (option_map_eq_none h))
    rw [henc] at this
    simpa using this
  case case3 x rest h1 h2 =>
    intro h
    rw [utf8Validate_err1 x rest (by omega) h2] at h
    exact Option.noConfusion h
  case case4 x h1 h2 h3 =>
    intro h
    rw [utf8Validate_err2nil x (by omega) h3] at h
    exact Option.noConfusion h
  case case6 x h1 h2 h3 c rest2 hc =>
    intro h
    rw [utf8Validate_err2cont x c rest2 (by omega) h3 hc] at h
    exact Option.noConfusion h
  case case7 x h1 h2 h3 h4 =>
    intro h
    rw [utf8Validate_err3nil x (by omega) h4] at h
    exact Option.noConfusion h
  case case8 x h1 h2 h3 h4 c1 hs3 =>
    intro h
    rw [utf8Validate_err3one x c1 (by omega) h4] at h
    exact Option.noConfusion h
  case case10 x h1 h2 h3 h4 c1 hs3 c2 rest2 hc2 =>
    intro h
    rw [utf8Validate_err3cont x c1 c2 rest2 (by omega) h4 hs3 hc2] at h
    exact Option.noConfusion h
  case case11 x h1 h2 h3 h4 c1 rest2 hns3 =>
    intro h
    rw [utf8Validate_err3second x c1 rest2 (by omega) h4 hns3] at h
    exact Option.noConfusion h
  case case12 x h1 h2 h3 h4 h5 =>
    intro h
    rw [utf8Validate_err4nil x (by omega) h5] at h
    exact Option.noConfusion h
  case case13 x h1 h2 h3 h4 h5 c1 hs4 =>
    intro h
    rw [utf8Validate_err4one x c1 (by omega) h5] at h
    exact Option.noConfusion h
  case case14 x h1 h2 h3 h4 h5 c1 hs4 c2 hc2 =>
    intro h
    rw [utf8Validate_err4two x c1 c2 (by omega) h5] at h
    exact Option.noConfusion h
  case case16 x h1 h2 h3 h4 h5 c1 hs4 c2 hc2 c3 rest2 hc3 =>
    intro h
    rw [utf8Validate_err4c3 x c1 c2 c3 rest2 (by omega) h5 hs4 hc2 hc3] at h
    exact Option.noConfusion h
  case case17 x h1 h2 h3 h4 h5 c1 hs4 c2 rest2 hc2 =>
    intro h
    rw [utf8Validate_err4c2 x c1 c2 rest2 (by omega) h5 hs4 hc2] at h
    exact Option.noConfusion h
  case case18 x h1 h2 h3 h4 h5 c1 rest2 hns4 =>
    intro h
    rw [utf8Validate_err4second x c1 rest2 (by omega) h5 hns4] at h
    exact Option.noConfusion h
  case case19 x rest2 h1 h2 h3 h4 h5 =>
    intro h
    rw [utf8Validate_err5 x rest2 (by omega)] at h
    exact Option.noConfusion h

/-! ### The reported error offset is the length of the longest valid prefix -/

lemma take_length_add {α : Type} (l t : List α) (n : Nat) :
    (l ++ t).take (l.length + n) = l ++ t.take n := by
  induction l with
  | nil => simp
  | cons a l ih =>
    have h : (a :: l).length + n = (l.length + n) + 1 := by
      simp only [List.length_cons]
      omega
    rw [h]
    simp only [List.cons_append, List.take_succ_cons, ih]

lemma utf8Valid_take_step (v : Nat) (t : List Nat) (o k : Nat) (hv : ScalarValue v)
    (hk : (utf8EncodeChar v).length = k) (h : Utf8Valid (t.take o)) :
    Utf8Valid ((utf8EncodeChar v ++ t).take (o + k)) := by
  rw [show o + k = (utf8EncodeChar v).length + o by omega, take_length_add]
  exact utf8Valid_char_append v _ hv h

/-- On a rejected byte string, the prefix of length `valid_up_to` is valid
UTF-8. -/
lemma utf8Validate_some_take (b : List Nat) :
    ∀ o, utf8Validate b = some o → Utf8Valid (b.take o) := by
  induction b using utf8Validate.induct
  case case1 =>
    intro o h
    exact Option.noConfusion h
  case case2 x rest hx ih =>
    intro o h
    rw [utf8Validate_one x rest hx] at h
    obtain ⟨o', ho', rfl⟩ := option_map_eq_some h
    show Utf8Valid (([x] ++ rest).take (o' + 1))
    rw [← utf8EncodeChar_one x hx]
    exact utf8Valid_take_step x rest o' 1 ⟨by omega, by omega⟩
      (by rw [utf8EncodeChar_one x hx]; rfl) (ih o' ho')
  case case5 x hn1 hn2 h2 c rest2 hc ih =>
    intro o h
    rw [utf8Validate_two x c rest2 (by omega) h2 hc] at h
    obtain ⟨o', ho', rfl⟩ := option_map_eq_some h
    obtain ⟨v, hv, henc⟩ := scalar_of_two x c (by omega) h2 hc
    show Utf8Valid (([x, c] ++ rest2).take (o' + 2))
    rw [← henc]
    exact utf8Valid_take_step v rest2 o' 2 hv (by rw [henc]; rfl) (ih o' ho')
  case case9 x hn1 hn2 hn3 h2 c1 hs3 c2 rest3 hc2 ih =>
    intro o h
    rw [utf8Validate_three x c1 c2 rest3 (by omega) h2 hs3 hc2] at h
    obtain ⟨o', ho', rfl⟩ := option_map_eq_some h
    obtain ⟨v, hv, henc⟩ := scalar_of_three x c1 c2 hs3 hc2
    show Utf8Valid (([x, c1, c2] ++ rest3).take (o' + 3))
    rw [← henc]
    exact utf8Valid_take_step v rest3 o' 3 hv (by rw [henc]; rfl) (ih o' ho')
  case case15 x hn1 hn2 hn3 hn4 h2 c1 hs4 c2 hc2 c3 rest4 hc3 ih =>
    intro o h
    rw [utf8Validate_four x c1 c2 c3 rest4 (by omega) h2 hs4 hc2 hc3] at h
    obtain ⟨o', ho', rfl⟩ := option_map_eq_some h
    obtain ⟨v, hv, henc⟩ := scalar_of_four x c1 c2 c3 hs4 hc2 hc3
    show Utf8Valid (([x, c1, c2, c3] ++ rest4).take (o' + 4))
    rw [← henc]
    exact utf8Valid_take_step v rest4 o' 4 hv (by rw [henc]; rfl) (ih o' ho')
  case case3 x rest h1 h2 =>
    intro o h
    rw [utf8Validate_err1 x rest (by omega) h2] at h
    injection h with h0
    subst h0
    exact utf8Valid_nil
  case case4 x h1 h2 h3 =>
    intro o h
    rw [utf8Validate_err2nil x (by omega) h3] at h
    injection h with h0
    subst h0
    exact utf8Valid_nil
  case case6 x h1 h2 h3 c rest2 hc =>
    intro o h
    rw [utf8Validate_err2cont x c rest2 (by omega) h3 hc] at h
    injection h with h0
    subst h0
    exact utf8Valid_nil
  case case7 x h1 h2 h3 h4 =>
    intro o h
    rw [utf8Validate_err3nil x (by omega) h4] at h
    injection h with h0
    subst h0
    exact utf8Valid_nil
  case case8 x h1 h2 h3 h4 c1 hs3 =>
    intro o h
    rw [utf8Validate_err3one x c1 (by omega) h4] at h
    injection h with h0
    subst h0
    exact utf8Valid_nil
  case case10 x h1 h2 h3 h4 c1 hs3 c2 rest2 hc2 =>
    intro o h
    rw [utf8Validate_err3cont x c1 c2 rest2 (by omega) h4 hs3 hc2] at h
    injection h with h0
    subst h0
    exact utf8Valid_nil
  case case11 x h1 h2 h3 h4 c1 rest2 hns3 =>
    intro o h
    rw [utf8Validate_err3second x c1 rest2 (by omega) h4 hns3] at h
    injection h with h0
    subst h0
    exact utf8Valid_nil
  case case12 x h1 h2 h3 h4 h5 =>
    intro o h
    rw [utf8Validate_err4nil x (by omega) h5] at h
    injection h with h0
    subst h0
    exact utf8Valid_nil
  case case13 x h1 h2 h3 h4 h5 c1 hs4 =>
    intro o h
    rw [utf8Validate_err4one x c1 (by omega) h5] at h
    injection h with h0
    subst h0
    exact utf8Valid_nil
  case case14 x h1 h2 h3 h4 h5 c1 hs4 c2 hc2 =>
    intro o h
    rw [utf8Validate_err4two x c1 c2 (by omega) h5] at h
    injection h with h0
    subst h0
    exact utf8Valid_nil
  case case16 x h1 h2 h3 h4 h5 c1 hs4 c2 hc2 c3 rest2 hc3 =>
    intro o h
    rw [utf8Validate_err4c3 x c1 c2 c3 rest2 (by omega) h5 hs4 hc2 hc3] at h
    injection h with h0
    subst h0
    exact utf8Valid_nil
  case case17 x h1 h2 h3 h4 h5 c1 hs4 c2 rest2 hc2 =>
    intro o h
    rw [utf8Validate_err4c2 x c1 c2 rest2 (by omega) h5 hs4 hc2] at h
    injection h with h0
    subst h0
    exact utf8Valid_nil
  case case18 x h1 h2 h3 h4 h5 c1 rest2 hns4 =>
    intro o h
    rw [utf8Validate_err4second x c1 rest2 (by omega) h5 hns4] at h
    injection h with h0
    subst h0
    exact utf8Valid_nil
  case case19 x rest2 h1 h2 h3 h4 h5 =>
    intro o h
    rw [utf8Validate_err5 x rest2 (by omega)] at h
    injection h with h0
    subst h0
    exact utf8Valid_nil

/-- On a rejected byte string, no prefix strictly longer than the reported
offset is valid UTF-8: the offset is the longest valid prefix, i.e. the
position of the first invalid byte. -/
lemma utf8Validate_some_take_gt (b : List Nat) (o n : Nat)
    (h : utf8Validate b = some o) (hn : o < n) : ¬ Utf8Valid (b.take n) := by
  rintro ⟨cs, hcs, henc⟩
  have hb : utf8Encode cs ++ b.drop n = b := by
    rw [henc, List.take_append_drop]
  have hv := utf8Validate_encode_append cs (b.drop n) hcs
  rw [hb, h] at hv
  cases hd : utf8Validate (b.drop n) with
  | none =>
    rw [hd] at hv
    simp at hv
  | some o' =>
    rw [hd] at hv
    simp only [Option.map_some', Option.some.injEq] at hv
    have hnlt : n < b.length := by
      by_contra hh
      rw [List.drop_eq_nil_of_le (by omega)] at hd
      exact Option.noConfusion hd
    have hlen : (utf8Encode cs).length = n := by
      rw [henc, List.length_take]
      omega
    omega

/-- The declarative and the operational notions of UTF-8 validity agree. -/
lemma utf8Valid_iff_validate (b : List Nat) :
    Utf8Valid b ↔ utf8Validate b = none := by
  constructor
  · exact utf8Valid_validate_eq_none b
  · exact utf8Validate_none_valid b

/-! ## Model of `bytes::Bytes`

`bytes::Bytes` is an immutable, reference-counted, cheaply cloneable view
into a shared allocation.  We model the allocations as an explicit heap
(one entry per allocation, only ever appended to, never mutated) and a
`Bytes` value as a handle into it. -/

/-- The allocations backing all `Bytes` values: index `i` holds the content
of allocation `i`.  Allocations are immutable; creating a fresh buffer
appends an entry. -/
abbrev Heap := List (List Nat)

/-- Model of `bytes::Bytes`: a shared view into one allocation, given by
the allocation id, a byte offset and a length.  Cloning copies the handle
(sharing the allocation); no operation mutates an allocation. -/
structure Bytes where
  source : Nat
  off : Nat
  len : Nat
deriving DecidableEq

/-- The byte content seen through a `Bytes` handle. -/
def readBytes (hp : Heap) (b : Bytes) : List Nat :=
  ((hp.getD b.source []).drop b.off).take b.len

/-- `Bytes::new()`: an empty buffer, no allocation performed. -/
def Bytes.new : Bytes := ⟨0, 0, 0⟩

/-- `Bytes::clear()` (implemented as `truncate(0)`): sets the handle's
length to zero.  Only this handle changes; the allocation is untouched. -/
def Bytes.clear (b : Bytes) : Bytes := { b with len := 0 }

/-- Allocation of a fresh buffer holding `d`.  This models
`Bytes::copy_from_slice`, `Bytes::from_static` and `Bytes::from(String)`:
in each case the storage entering the system is new, shared with no
existing handle. -/
def Bytes.alloc (hp : Heap) (d : List Nat) : Bytes × Heap :=
  (⟨hp.length, 0, d.length⟩, hp ++ [d])

/-- `Clone for Bytes`: copies the handle; the allocation is shared. -/
def Bytes.clone (b : Bytes) : Bytes := b

/-- Lexicographic comparison of byte strings; this is both
`Ord for [u8]` and (byte-wise) `Ord for str` in Rust. -/
def listCmp : List Nat → List Nat → Ordering
  | [], [] => Ordering.eq
  | [], _ :: _ => Ordering.lt
  | _ :: _, [] => Ordering.gt
  | a :: s, b :: t =>
    if a < b then Ordering.lt else if b < a then Ordering.gt else listCmp s t

/-- `PartialEq for Bytes`: compares the viewed contents
(`self.as_ref() == other.as_ref()`), not the handles. -/
def Bytes.beq (hp : Heap) (a b : Bytes) : Bool :=
  readBytes hp a == readBytes hp b

/-- `Ord for Bytes`: compares the viewed contents
(`self.as_ref().cmp(other.as_ref())`). -/
def Bytes.cmp (hp : Heap) (a b : Bytes) : Ordering :=
  listCmp (readBytes hp a) (readBytes hp b)

lemma getD_append_length (hp : Heap) (d : List Nat) :
    (hp ++ [d]).getD hp.length [] = d := by
  induction hp with
  | nil => rfl
  | cons a t ih => exact ih

lemma getD_append_lt (hp : Heap) (d dflt : List Nat) (i : Nat) (h : i < hp.length) :
    (hp ++ [d]).getD i dflt = hp.getD i dflt := by
  induction hp generalizing i with
  | nil => simp at h
  | cons a t ih =>
    cases i with
    | zero => rfl
    | succ n =>
      have : n < t.length := by simpa using h
      simpa using ih n this

/-- Reading a freshly allocated buffer yields its content. -/
lemma readBytes_alloc (hp : Heap) (d : List Nat) :
    readBytes (Bytes.alloc hp d).2 (Bytes.alloc hp d).1 = d := by
  simp [readBytes, Bytes.alloc, getD_append_length]

/-- Appending a fresh allocation does not change what existing well-formed
handles see. -/
lemma readBytes_append (hp : Heap) (d : List Nat) (b : Bytes)
    (hwf : b.source < hp.length ∨ b.len = 0) :
    readBytes (hp ++ [d]) b = readBytes hp b := by
  rcases hwf with hs | h0
  · unfold readBytes
    rw [getD_append_lt hp d [] b.source hs]
  · simp [readBytes, h0]

/-! ## Model of `Chars` (`protobuf/src/chars.rs`)

`Chars` is a thin wrapper around `Bytes` which guarantees the bytes are a
valid UTF-8 string. -/

/-- `std::str::Utf8Error`, as far as `Chars::from_bytes` exposes it: the
byte offset up to which the input was valid. -/
structure Utf8Error where
  valid_up_to : Nat
deriving DecidableEq

/-- `pub struct Chars(Bytes)`. -/
structure Chars where
  bytes : Bytes
deriving DecidableEq

/-- `Chars::new()`: `Chars(Bytes::new())`. -/
def Chars.new : Chars := ⟨Bytes.new⟩

/-- `Chars::clear()`: `self.0.clear()`. -/
def Chars.clear (c : Chars) : Chars := ⟨Bytes.clear c.bytes⟩

/-- `Chars::from_bytes(bytes)`: `str::from_utf8(&bytes)?; Ok(Chars(bytes))`.
The sole fallible constructor: validates and wraps the very same buffer
(zero copy) on success. -/
def Chars.from_bytes (hp : Heap) (b : Bytes) : Except Utf8Error Chars :=
  match utf8Validate (readBytes hp b) with
  | some o => Except.error ⟨o⟩
  | none => Except.ok ⟨b⟩

/-- `Chars::from_static(s)`: `Chars(Bytes::from_static(s.as_bytes()))`.
The argument is a `&'static str`, so its bytes are valid UTF-8 by the host
language; no runtime validation happens. -/
def Chars.from_static (hp : Heap) (s : List Nat) : Chars × Heap :=
  (⟨(Bytes.alloc hp s).1⟩, (Bytes.alloc hp s).2)

/-- `From<&str> for Chars`: `Chars(Bytes::copy_from_slice(src.as_bytes()))`. -/
def Chars.fromStr (hp : Heap) (s : List Nat) : Chars × Heap :=
  (⟨(Bytes.alloc hp s).1⟩, (Bytes.alloc hp s).2)

/-- `From<String> for Chars`: `Chars(Bytes::from(src))`; the string's
storage becomes the buffer, without validation (a `String` is valid UTF-8
by its own invariant). -/
def Chars.fromString (hp : Heap) (s : List Nat) : Chars × Heap :=
  (⟨(Bytes.alloc hp s).1⟩, (Bytes.alloc hp s).2)

/-- `Chars::len()`: `self.0.len()`, the byte length. -/
def Chars.len (c : Chars) : Nat := c.bytes.len

/-- `Chars::is_empty()`: `self.0.is_empty()`. -/
def Chars.is_empty (c : Chars) : Bool := c.bytes.len == 0

/-- `Deref for Chars` (borrow as `&str`):
`str::from_utf8_unchecked(&self.0)` — the bytes viewed through the handle,
reinterpreted as text without re-validation. -/
def Chars.deref (hp : Heap) (c : Chars) : List Nat := readBytes hp c.bytes

/-- `Chars::into_bytes()`: returns the underlying buffer handle. -/
def Chars.into_bytes (c : Chars) : Bytes := c.bytes

/-- `Into<String> for Chars`:
`String::from_utf8_unchecked(self.0.as_ref().to_owned())` — an owned copy
of the viewed bytes. -/
def Chars.intoString (hp : Heap) (c : Chars) : List Nat := readBytes hp c.bytes

/-- `Clone for Chars` (derived): clones the `Bytes` field, sharing the
allocation. -/
def Chars.clone (c : Chars) : Chars := ⟨Bytes.clone c.bytes⟩

/-- `PartialEq for Chars` (derived): compares the `Bytes` fields, which
compare their viewed contents. -/
def Chars.beq (hp : Heap) (a b : Chars) : Bool := Bytes.beq hp a.bytes b.bytes

/-- `Ord for Chars` (derived): compares the `Bytes` fields, which compare
their viewed contents lexicographically. -/
def Chars.cmp (hp : Heap) (a b : Chars) : Ordering := Bytes.cmp hp a.bytes b.bytes

/-- `PartialEq<&str> for Chars`: `&*self == other`. -/
def Chars.eqStr (hp : Heap) (c : Chars) (s : List Nat) : Bool :=
  Chars.deref hp c == s

/-! ## Formatting surface (`Display` / `Debug`)

`Display for Chars` and `Debug for Chars` both delegate to the `str`
implementations on `&**self` (`fmt::Display::fmt(&**self, f)` and
`fmt::Debug::fmt(&**self, f)`), so the outputs coincide with those of the
equal string by construction.  We model the renderings as byte strings. -/

/-- `Display for str`: the text itself, unquoted and unescaped.
`Display for String` delegates to it. -/
def strDisplay (s : List Nat) : List Nat := s

def hexDigitChar (n : Nat) : Nat :=
  if n < 10 then 0x30 + n else 0x57 + (n - 10)

/-- Modelled from the spec: the "language-conventional quoting/escaping"
of `Debug for str` for one byte — quotes and backslashes are escaped,
common control characters get their short escapes, other control bytes a
hexadecimal escape, and remaining bytes pass through.  (The exact escape
table of the host formatter is external to this repository; the theorems
below only rely on `Chars`'s Debug rendering delegating to it.) -/
def escapeByte (b : Nat) : List Nat :=
  if b = 0x22 then [0x5C, 0x22]
  else if b = 0x5C then [0x5C, 0x5C]
  else if b = 0x0A then [0x5C, 0x6E]
  else if b = 0x0D then [0x5C, 0x72]
  else if b = 0x09 then [0x5C, 0x74]
  else if b = 0x00 then [0x5C, 0x30]
  else if b < 0x20 then
    [0x5C, 0x75, 0x7B] ++
      (if b < 0x10 then [hexDigitChar b]
       else [hexDigitChar (b / 16), hexDigitChar (b % 16)]) ++ [0x7D]
  else [b]

def escapeBytes : List Nat → List Nat
  | [] => []
  | b :: t => escapeByte b ++ escapeBytes t

/-- `Debug for str`: the escaped text surrounded by double quotes.
`Debug for String` delegates to it. -/
def strDebug (s : List Nat) : List Nat := [0x22] ++ escapeBytes s ++ [0x22]

/-- `Display for String` output. -/
def stringDisplay (s : List Nat) : List Nat := strDisplay s

/-- `Debug for String` output. -/
def stringDebug (s : List Nat) : List Nat := strDebug s

/-- `Display for Chars`: delegates to `Display` of the derefed `str`. -/
def Chars.display (hp : Heap) (c : Chars) : List Nat := strDisplay (Chars.deref hp c)

/-- `Debug for Chars`: delegates to `Debug` of the derefed `str`. -/
def Chars.debug (hp : Heap) (c : Chars) : List Nat := strDebug (Chars.deref hp c)

/-! ## Hashing surface

A Rust `Hasher` is driven through primitive `write*` calls; a `Hash`
implementation is characterised by the sequence of such calls it makes.
Two values hash identically under every hasher exactly when they feed the
hasher the same call sequence. -/

/-- One primitive call to a `Hasher`. -/
inductive HashEvent where
  | write (bs : List Nat)
  | writeU8 (b : Nat)
  | writeUsize (n : Nat)
deriving DecidableEq

/-- `Hash for str` (which `Hash for String` delegates to): writes the
bytes, then a `0xFF` terminator byte. -/
def strHashEvents (s : List Nat) : List HashEvent :=
  [HashEvent.write s, HashEvent.writeU8 0xFF]

/-- `Hash for String` output: delegates to `Hash for str`. -/
def stringHashEvents (s : List Nat) : List HashEvent := strHashEvents s

/-- `Hash for [u8]`: writes a length prefix, then the bytes in one call. -/
def sliceU8HashEvents (d : List Nat) : List HashEvent :=
  [HashEvent.writeUsize d.length, HashEvent.write d]

/-- `Hash for Bytes`: hashes the viewed content as a `&[u8]` slice. -/
def bytesHashEvents (hp : Heap) (b : Bytes) : List HashEvent :=
  sliceU8HashEvents (readBytes hp b)

/-- `Hash for Chars` (derived): hashes the single `Bytes` field. -/
def charsHashEvents (hp : Heap) (c : Chars) : List HashEvent :=
  bytesHashEvents hp c.bytes

def natLEBytes : Nat → Nat → List Nat
  | 0, _ => []
  | k + 1, n => (n % 0x100) :: natLEBytes k (n / 0x100)

def hashEventBytes : HashEvent → List Nat
  | HashEvent.write bs => bs
  | HashEvent.writeU8 b => [b]
  | HashEvent.writeUsize n => natLEBytes 8 n

/-- A concrete (injective-on-streams) hasher: the byte stream it absorbs.
Any two values whose absorbed streams differ hash differently under it. -/
def runHasher : List HashEvent → List Nat
  | [] => []
  | e :: t => hashEventBytes e ++ runHasher t

/-- `Ord for String` / `Ord for str`: lexicographic byte comparison. -/
def stringCmp (s t : List Nat) : Ordering := listCmp s t

/-! ## Reachable states of the safe public interface

A system state is the allocation heap together with the `Chars` values a
client currently holds.  A step is one call through the safe public
surface of `chars.rs`: `new`, `from_bytes` (when it succeeds), the
`from_static` / `From<&str>` / `From<String>` constructors (whose string
arguments are valid UTF-8 by the host language's string types), `clear` on
a held view, or `clone` of a held view. -/

structure SysState where
  heap : Heap
  views : List Chars

inductive Step : SysState → SysState → Prop where
  | newView (s : SysState) :
      Step s ⟨s.heap, s.views ++ [Chars.new]⟩
  | fromBytes (s : SysState) (b : Bytes) (c : Chars)
      (hwf : b.source < s.heap.length ∨ b.len = 0)
      (hok : Chars.from_bytes s.heap b = Except.ok c) :
      Step s ⟨s.heap, s.views ++ [c]⟩
  | fromStatic (s : SysState) (t : List Nat) (hv : Utf8Valid t) :
      Step s ⟨(Chars.from_static s.heap t).2,
        s.views ++ [(Chars.from_static s.heap t).1]⟩
  | fromStrStep (s : SysState) (t : List Nat) (hv : Utf8Valid t) :
      Step s ⟨(Chars.fromStr s.heap t).2, s.views ++ [(Chars.fromStr s.heap t).1]⟩
  | fromStringStep (s : SysState) (t : List Nat) (hv : Utf8Valid t) :
      Step s ⟨(Chars.fromString s.heap t).2,
        s.views ++ [(Chars.fromString s.heap t).1]⟩
  | clearStep (s : SysState) (i : Nat) :
      Step s ⟨s.heap, s.views.set i (Chars.clear (s.views.getD i Chars.new))⟩
  | cloneStep (s : SysState) (i : Nat) :
      Step s ⟨s.heap, s.views ++ [Chars.clone (s.views.getD i Chars.new)]⟩

/-- States reachable from the empty initial state through the safe public
interface. -/
inductive Reachable : SysState → Prop where
  | init : Reachable ⟨[], []⟩
  | step (s s' : SysState) (h : Reachable s) (hs : Step s s') : Reachable s'

/-- Well-formedness of one held view: its handle points below the heap
top (or is empty), and the bytes it sees are valid UTF-8. -/
def ViewWF (hp : Heap) (c : Chars) : Prop :=
  (c.bytes.source < hp.length ∨ c.bytes.len = 0) ∧ Utf8Valid (readBytes hp c.bytes)

def StateWF (s : SysState) : Prop := ∀ c ∈ s.views, ViewWF s.heap c

lemma viewWF_append (hp : Heap) (d : List Nat) (c : Chars) (h : ViewWF hp c) :
    ViewWF (hp ++ [d]) c := by
  obtain ⟨hwf, hv⟩ := h
  constructor
  · rcases hwf with hs | h0
    · left
      simp only [List.length_append]
      omega
    · right
      exact h0
  · rwa [readBytes_append hp d c.bytes hwf]

lemma viewWF_new (hp : Heap) : ViewWF hp Chars.new := by
  refine ⟨Or.inr rfl, ?_⟩
  have h : readBytes hp Chars.new.bytes = [] := by
    simp [readBytes, Chars.new, Bytes.new]
  rw [h]
  exact utf8Valid_nil

lemma viewWF_clear (hp : Heap) (c : Chars) : ViewWF hp (Chars.clear c) := by
  refine ⟨Or.inr rfl, ?_⟩
  have h : readBytes hp (Chars.clear c).bytes = [] := by
    simp [readBytes, Chars.clear, Bytes.clear]
  rw [h]
  exact utf8Valid_nil

lemma viewWF_alloc (hp : Heap) (t0 : List Nat) (hv : Utf8Valid t0) :
    ViewWF (Bytes.alloc hp t0).2 ⟨(Bytes.alloc hp t0).1⟩ := by
  constructor
  · left
    simp only [Bytes.alloc, List.length_append, List.length_singleton]
    omega
  · rw [show (⟨(Bytes.alloc hp t0).1⟩ : Chars).bytes = (Bytes.alloc hp t0).1 from rfl,
      readBytes_alloc hp t0]
    exact hv

lemma mem_set_or {α : Type} (l : List α) (i : Nat) (x a : α) (h : a ∈ l.set i x) :
    a ∈ l ∨ a = x := by
  induction l generalizing i with
  | nil => simp [List.set] at h
  | cons b t ih =>
    cases i with
    | zero =>
      rw [show (b :: t).set 0 x = x :: t from rfl] at h
      rcases List.mem_cons.mp h with rfl | h'
      · right
        rfl
      · left
        exact List.mem_cons_of_mem b h'
    | succ n =>
      rw [show (b :: t).set (n + 1) x = b :: t.set n x from rfl] at h
      rcases List.mem_cons.mp h with rfl | h'
      · left
        exact List.mem_cons_self _ _
      · rcases ih n h' with h2 | h2
        · left
          exact List.mem_cons_of_mem b h2
        · right
          exact h2

lemma getD_mem_or_default {α : Type} (l : List α) (i : Nat) (d : α) :
    l.getD i d ∈ l ∨ l.getD i d = d := by
  induction l generalizing i with
  | nil =>
    right
    cases i <;> rfl
  | cons a t ih =>
    cases i with
    | zero =>
      left
      exact List.mem_cons_self a t
    | succ n =>
      rcases ih n with h | h
      · left
        exact List.mem_cons_of_mem a h
      · right
        exact h

/-- The induction core for invariant I1: every state reachable through the
safe public interface is well-formed, i.e. every held view sees valid
UTF-8 through a handle below the heap top. -/
lemma reachable_wf (s : SysState) (h : Reachable s) : StateWF s := by
  induction h with
  | init =>
    intro c hc
    simp at hc
  | step t t' hr hstep ih =>
    cases hstep with
    | newView =>
      intro c hc
      rcases List.mem_append.mp hc with hc | hc
      · exact ih c hc
      · rw [List.mem_singleton.mp hc]
        exact viewWF_new _
    | fromBytes b c0 hwf hok =>
      intro c hc
      rcases List.mem_append.mp hc with hc | hc
      · exact ih c hc
      · rw [List.mem_singleton.mp hc]
        unfold Chars.from_bytes at hok
        cases hval : utf8Validate (readBytes t.heap b) with
        | some o =>
          rw [hval] at hok
          simp at hok
        | none =>
          rw [hval] at hok
          have hc0 : Chars.mk b = c0 := by simpa using hok
          subst hc0
          exact ⟨hwf, utf8Validate_none_valid _ hval⟩
    | fromStatic t0 hv =>
      intro c hc
      rcases List.mem_append.mp hc with hc | hc
      · exact viewWF_append t.heap t0 c (ih c hc)
      · rw [List.mem_singleton.mp hc]
        exact viewWF_alloc t.heap t0 hv
    | fromStrStep t0 hv =>
      intro c hc
      rcases List.mem_append.mp hc with hc | hc
      · exact viewWF_append t.heap t0 c (ih c hc)
      · rw [List.mem_singleton.mp hc]
        exact viewWF_alloc t.heap t0 hv
    | fromStringStep t0 hv =>
      intro c hc
      rcases List.mem_append.mp hc with hc | hc
      · exact viewWF_append t.heap t0 c (ih c hc)
      · rw [List.mem_singleton.mp hc]
        exact viewWF_alloc t.heap t0 hv
    | clearStep i =>
      intro c hc
      rcases mem_set_or t.views i _ c hc with hold | heq
      · exact ih c hold
      · rw [heq]
        exact viewWF_clear _ _
    | cloneStep i =>
      intro c hc
      rcases List.mem_append.mp hc with hold | hnew
      · exact ih c hold
      · rw [List.mem_singleton.mp hnew]
        rw [show Chars.clone (t.views.getD i Chars.new) = t.views.getD i Chars.new
          from rfl]
        rcases getD_mem_or_default t.views i Chars.new with hm | hd
        · exact ih _ hm
        · rw [hd]
          exact viewWF_new _

lemma getD_set_ne {α : Type} (l : List α) (i j : Nat) (x d : α) (h : j ≠ i) :
    (l.set i x).getD j d = l.getD j d := by
  induction l generalizing i j with
  | nil => rfl
  | cons a t ih =>
    cases i with
    | zero =>
      cases j with
      | zero => exact absurd rfl h
      | succ m => rfl
    | succ n =>
      cases j with
      | zero => rfl
      | succ m =>
        have hmn : m ≠ n := fun hh => h (by rw [hh])
        show (t.set n x).getD m d = t.getD m d
        exact ih n m hmn

/-- Concrete scenario data: a view over the four bytes of `"test"`,
cloned twice. -/
def testHeap : Heap := [[0x74, 0x65, 0x73, 0x74]]

def testView : Chars := ⟨⟨0, 0, 4⟩⟩

def testViews : List Chars := [testView, Chars.clone testView, Chars.clone testView]

example : Chars.deref testHeap testView = [0x74, 0x65, 0x73, 0x74] := by decide
example : Chars.len testView = 4 := by decide

/-! ## The claims -/

/-- **C1**: invariant I1 holds in every reachable state: for every `Chars`
value held in a state reachable through the safe public interface (`new`,
successful `from_bytes`, `from_static`, `From<&str>`, `From<String>`,
plus any sequence of `clear`s and `clone`s), the byte sequence seen
through the wrapped buffer is a valid UTF-8 encoding of some sequence of
Unicode scalar values — so borrowing the value as text (`Deref` to `str`)
is sound in every reachable state. -/
theorem chars_invariant_utf8 (s : SysState) (c : Chars) (h : Reachable s)
    (hc : c ∈ s.views) : Utf8Valid (Chars.deref s.heap c) :=
  (reachable_wf s h c hc).2

theorem chars_invariant_utf8_witness :
    Utf8Valid (Chars.deref ([] : Heap) Chars.new) :=
  chars_invariant_utf8 ⟨[], [Chars.new]⟩ Chars.new
    (Reachable.step _ _ Reachable.init (Step.newView _)) (by simp)

/-- **C2**: for every byte buffer whose content is valid UTF-8,
`from_bytes` succeeds, wraps that very buffer, and `Deref` on the result
yields exactly the input bytes — none added, removed, or changed. -/
theorem chars_from_bytes_valid (hp : Heap) (b : Bytes)
    (h : Utf8Valid (readBytes hp b)) :
    Chars.from_bytes hp b = Except.ok ⟨b⟩ ∧
      Chars.deref hp ⟨b⟩ = readBytes hp b := by
  constructor
  · unfold Chars.from_bytes
    rw [utf8Valid_validate_eq_none _ h]
  · rfl

theorem chars_from_bytes_valid_witness :
    Chars.from_bytes [[0x63, 0x61, 0x66, 0xC3, 0xA9]] ⟨0, 0, 5⟩
        = Except.ok ⟨⟨0, 0, 5⟩⟩ ∧
      Chars.deref [[0x63, 0x61, 0x66, 0xC3, 0xA9]] ⟨⟨0, 0, 5⟩⟩
        = readBytes [[0x63, 0x61, 0x66, 0xC3, 0xA9]] ⟨0, 0, 5⟩ :=
  chars_from_bytes_valid _ _ ⟨[0x63, 0x61, 0x66, 0xE9], by decide, by decide⟩

/-- **C3**: for every byte buffer whose content contains an invalid UTF-8
subsequence, `from_bytes` returns the invalid-UTF-8 error (constructing no
view), and the reported offset is the offset of the first invalid byte
under standard UTF-8 validation rules: the prefix of that length is valid
UTF-8 and every strictly longer prefix is not.  In particular, on
`[0x63, 0x61, 0xFF, 0x66, 0x65]` it fails with offset 2. -/
theorem chars_from_bytes_invalid (hp : Heap) (b : Bytes)
    (h : ¬ Utf8Valid (readBytes hp b)) :
    (∃ o, Chars.from_bytes hp b = Except.error ⟨o⟩ ∧
      Utf8Valid ((readBytes hp b).take o) ∧
      ∀ n, o < n → ¬ Utf8Valid ((readBytes hp b).take n)) ∧
    Chars.from_bytes [[0x63, 0x61, 0xFF, 0x66, 0x65]] ⟨0, 0, 5⟩
      = Except.error ⟨2⟩ := by
  constructor
  · cases hval : utf8Validate (readBytes hp b) with
    | none => exact absurd (utf8Validate_none_valid _ hval) h
    | some o =>
      refine ⟨o, ?_, utf8Validate_some_take _ o hval,
        fun n hn => utf8Validate_some_take_gt _ o n hval hn⟩
      unfold Chars.from_bytes
      rw [hval]
  · rfl

theorem chars_from_bytes_invalid_witness :
    (∃ o, Chars.from_bytes [[0x63, 0x61, 0xFF, 0x66, 0x65]] ⟨0, 0, 5⟩
        = Except.error ⟨o⟩ ∧
      Utf8Valid ((readBytes [[0x63, 0x61, 0xFF, 0x66, 0x65]] ⟨0, 0, 5⟩).take o) ∧
      ∀ n, o < n →
        ¬ Utf8Valid ((readBytes [[0x63, 0x61, 0xFF, 0x66, 0x65]] ⟨0, 0, 5⟩).take n)) ∧
    Chars.from_bytes [[0x63, 0x61, 0xFF, 0x66, 0x65]] ⟨0, 0, 5⟩
      = Except.error ⟨2⟩ :=
  chars_from_bytes_invalid _ _ (fun hv =>
    absurd (utf8Valid_validate_eq_none _ hv) (by decide))

/-- **C4**: round trip — converting an owned string into a view
(`From<String> for Chars`) and converting the view back into an owned
string (`Into<String> for Chars`) yields a string equal to the original. -/
theorem chars_string_round_trip (hp : Heap) (s : List Nat) (_hs : Utf8Valid s) :
    Chars.intoString (Chars.fromString hp s).2 (Chars.fromString hp s).1 = s := by
  unfold Chars.intoString Chars.fromString
  exact readBytes_alloc hp s

theorem chars_string_round_trip_witness :
    Chars.intoString (Chars.fromString [] [0x61, 0x62, 0x63]).2
      (Chars.fromString [] [0x61, 0x62, 0x63]).1 = [0x61, 0x62, 0x63] :=
  chars_string_round_trip [] _ ⟨[0x61, 0x62, 0x63], by decide, by decide⟩

/-- **C5**: equality of views is content-based, not storage-based: two
views compare equal iff the byte contents of their buffers are identical;
in particular views over independently allocated buffers with the same
bytes are equal, and a view and its clone (sharing storage) are equal. -/
theorem chars_eq_iff_content :
    (∀ (hp : Heap) (a b : Chars),
      Chars.beq hp a b = true ↔ Chars.deref hp a = Chars.deref hp b) ∧
    (∀ (hp : Heap) (a b : Chars), a.bytes.source ≠ b.bytes.source →
      Chars.deref hp a = Chars.deref hp b → Chars.beq hp a b = true) ∧
    (∀ (hp : Heap) (c : Chars), Chars.beq hp c (Chars.clone c) = true) := by
  refine ⟨?_, ?_, ?_⟩
  · intro hp a b
    exact beq_iff_eq
  · intro hp a b hsrc heq
    exact beq_iff_eq.mpr heq
  · intro hp c
    exact beq_iff_eq.mpr rfl

/-- **C6**: frame effect of `clear`: clearing the view at index `i` of the
held views leaves every view at an index `j ≠ i` completely unchanged —
same view value, same derefed text, same length — even when it shares the
cleared view's buffer, since `clear` replaces only the one handle and
never touches the shared allocation. -/
theorem chars_clear_frame (hp : Heap) (vs : List Chars) (i j : Nat) (hne : j ≠ i) :
    (vs.set i (Chars.clear (vs.getD i Chars.new))).getD j Chars.new
        = vs.getD j Chars.new ∧
      Chars.deref hp
          ((vs.set i (Chars.clear (vs.getD i Chars.new))).getD j Chars.new)
        = Chars.deref hp (vs.getD j Chars.new) ∧
      Chars.len ((vs.set i (Chars.clear (vs.getD i Chars.new))).getD j Chars.new)
        = Chars.len (vs.getD j Chars.new) := by
  have h := getD_set_ne vs i j (Chars.clear (vs.getD i Chars.new)) Chars.new hne
  exact ⟨h, by rw [h], by rw [h]⟩

theorem chars_clear_frame_witness :
    (testViews.set 1 (Chars.clear (testViews.getD 1 Chars.new))).getD 2 Chars.new
        = testViews.getD 2 Chars.new ∧
      Chars.deref testHeap
          ((testViews.set 1 (Chars.clear (testViews.getD 1 Chars.new))).getD 2
            Chars.new)
        = Chars.deref testHeap (testViews.getD 2 Chars.new) ∧
      Chars.len
          ((testViews.set 1 (Chars.clear (testViews.getD 1 Chars.new))).getD 2
            Chars.new)
        = Chars.len (testViews.getD 2 Chars.new) :=
  chars_clear_frame testHeap testViews 1 2 (by decide)

/-- **C7**: `clear` is idempotent — clearing twice equals clearing once —
and after a `clear` the view has length 0 and `is_empty` is true. -/
theorem chars_clear_idempotent (c : Chars) :
    Chars.clear (Chars.clear c) = Chars.clear c ∧
      Chars.len (Chars.clear c) = 0 ∧
      Chars.is_empty (Chars.clear c) = true :=
  ⟨rfl, rfl, rfl⟩

/-- **C8** (code bug): ordering of `Chars` does agree with `String`
ordering — both compare the underlying bytes lexicographically — but
hashing does not: the derived `Hash` for `Chars` hashes the wrapped
`Bytes` as a `[u8]` slice, feeding the hasher a length prefix followed by
the bytes, while `String`/`str` feed the bytes followed by a `0xFF`
terminator.  The hasher-call streams differ even for equal text (shown
here for `"a"`), and a concrete hasher distinguishes them, contradicting
the claim that any hasher yields the same hash as for the equal `String`
(and the `Borrow<str>`-consistency that `HashMap` lookups rely on). -/
theorem chars_cmp_matches_string_but_hash_differs :
    (∀ (hp : Heap) (a b : Chars),
      Chars.cmp hp a b = stringCmp (Chars.deref hp a) (Chars.deref hp b)) ∧
    charsHashEvents [[0x61]] ⟨⟨0, 0, 1⟩⟩ ≠ stringHashEvents [0x61] ∧
    runHasher (charsHashEvents [[0x61]] ⟨⟨0, 0, 1⟩⟩)
      ≠ runHasher (stringHashEvents [0x61]) ∧
    Chars.deref [[0x61]] ⟨⟨0, 0, 1⟩⟩ = [0x61] := by
  refine ⟨?_, by decide, by decide, by decide⟩
  intro hp a b
  rfl

/-- **C9**: the Display output of a view constructed from `s` is
byte-identical to the Display output of `s` itself, and the Debug output
of the view is identical to the Debug rendering of `s` (quoting and
escaping included), because both formatters delegate to the `str`
implementations on the derefed text. -/
theorem chars_display_debug_eq_string (hp : Heap) (s : List Nat) :
    Chars.display (Chars.fromString hp s).2 (Chars.fromString hp s).1
        = stringDisplay s ∧
      Chars.debug (Chars.fromString hp s).2 (Chars.fromString hp s).1
        = stringDebug s := by
  have h : Chars.deref (Chars.fromString hp s).2 (Chars.fromString hp s).1 = s :=
    readBytes_alloc hp s
  constructor
  · unfold Chars.display
    rw [h]
    rfl
  · unfold Chars.debug
    rw [h]
    rfl

/-- **C10**: a `Chars` view can be compared directly against a borrowed
string slice (`PartialEq<&str>`), and the comparison holds iff the view's
derefed text equals that slice. -/
theorem chars_eq_str_iff (hp : Heap) (c : Chars) (s : List Nat) :
    Chars.eqStr hp c s = true ↔ Chars.deref hp c = s := by
  unfold Chars.eqStr
  exact beq_iff_eq
